import Mathlib

/-!
Verification of the document placeholder-extraction-and-rewrite engine of
`supabase/functions/process-document/index.ts` (final snapshot of the module,
the one whose line numbers the claims cite).

The TypeScript source is shallowly embedded:
* strings are modelled as `List Char` (JS strings scanned character by
  character); the handful of regular expressions in the source all have a
  deterministic leftmost-match semantics (their character classes make
  backtracking impossible), so each is embedded as an explicit scanner;
* JS numbers appearing as parsed percentages are modelled as `ℚ`
  (every value produced by `parseFloat` on the digit strings the code
  extracts is a decimal fraction);
* the external generation capability (`fetch` to the model gateway) is
  modelled as an oracle `Nat → ApiResponse` giving the response to the
  n-th attempt;
* scanners that walk a string by repeatedly jumping to a computed suffix
  take an explicit fuel argument (instantiated with the string length at
  the top level) so that every definition reduces in the kernel.
-/

namespace DocUpdate

/-! ## Basic character utilities (JS built-ins used by the source) -/

/-- JS `\s` / `String.prototype.trim` whitespace, restricted to the ASCII
whitespace characters that can occur in the documents the engine handles. -/
def isJsWs (c : Char) : Bool :=
  c = ' ' || c = '\t' || c = '\n' || c = '\r'

/-- JS `\w` word characters `[A-Za-z0-9_]`, used for the `\b` boundaries. -/
def isWordChar (c : Char) : Bool :=
  ('a' ≤ c && c ≤ 'z') || ('A' ≤ c && c ≤ 'Z') || ('0' ≤ c && c ≤ '9') || c = '_'

/-- JS digit class `\d`. -/
def isDigitChar (c : Char) : Bool := '0' ≤ c && c ≤ '9'

/-- Model of `text.trim()`. -/
def jsTrim (l : List Char) : List Char :=
  (((l.dropWhile isJsWs).reverse).dropWhile isJsWs).reverse

/-- Model of `text.toLowerCase()` (ASCII). -/
def jsLower (l : List Char) : List Char := l.map Char.toLower

/-- Substring containment, the semantics of JS `String.prototype.includes`. -/
def containsSub (needle : List Char) : List Char → Bool
  | [] => needle.isEmpty
  | c :: rest => needle.isPrefixOf (c :: rest) || containsSub needle rest

/-! ## `escapeXml` (source lines 1700–1719)

`String.prototype.replace` with a global single-character pattern replaces
every occurrence of that character; this is exactly a `flatMap`. -/

/-- Model of `s.replace(/c/g, r)` for a single-character pattern `c`. -/
def replaceAllChar (c : Char) (r : List Char) (s : List Char) : List Char :=
  s.flatMap fun x => if x = c then r else [x]

/-- The URL test `/^https?:\/\//.test(text.trim())`. -/
def isUrlText (text : List Char) : Bool :=
  ("http://".toList).isPrefixOf (jsTrim text) ||
  ("https://".toList).isPrefixOf (jsTrim text)

/-- Model of `escapeXml` (lines 1700–1719): URLs get only `<`/`>` escaped, everything
else gets the full five-entity escaping, applied as the source's chain of
global replaces (`&` first, then `<`, `>`, `"`, `'`). -/
def escapeXml (text : List Char) : List Char :=
  if isUrlText text then
    replaceAllChar '>' ("&gt;".toList) (replaceAllChar '<' ("&lt;".toList) text)
  else
    replaceAllChar '\'' ("&apos;".toList)
      (replaceAllChar '"' ("&quot;".toList)
        (replaceAllChar '>' ("&gt;".toList)
          (replaceAllChar '<' ("&lt;".toList)
            (replaceAllChar '&' ("&amp;".toList) text))))

/-- Spec-side description of the escaping (§4.4 of the spec): a single pass
mapping each character to its escaped form — in URL mode only `<` and `>`
are escaped and `&` is preserved; otherwise all five of `& < > " '` are. -/
def escCharSpec (url : Bool) (c : Char) : List Char :=
  if url then
    if c = '<' then "&lt;".toList else if c = '>' then "&gt;".toList else [c]
  else
    if c = '&' then "&amp;".toList
    else if c = '<' then "&lt;".toList
    else if c = '>' then "&gt;".toList
    else if c = '"' then "&quot;".toList
    else if c = '\'' then "&apos;".toList
    else [c]

/-- Spec-side escaping function, to be compared with the source's `escapeXml`. -/
def escapeXmlSpec (text : List Char) : List Char :=
  text.flatMap (escCharSpec (isUrlText text))

/-! ## The replacement map and the 1:1 contract (source lines 2571–2579)

`replacementMap` is a JS `Map<number, string>`; numeric keys are modelled as
`ℤ` (they are produced by `section_number - 1`, which can be negative). -/

/-- One scanned section (`HighlightedSection` in the source). -/
structure HighlightedSection where
  text : List Char
  context : List Char
  fullMatch : List Char
deriving DecidableEq, Repr

/-- One produced replacement (`ProcessedReplacement` in the source). -/
structure ProcessedReplacement where
  originalText : List Char
  newText : List Char
  fullMatch : List Char
deriving DecidableEq, Repr

/-- Model of `Map.prototype.get` on an association list. -/
def mapLookup (m : List (Int × List Char)) (k : Int) : Option (List Char) :=
  match m.find? (fun p => p.1 = k) with
  | some p => some p.2
  | none => none

/-- Model of `Map.prototype.set`: overwrite the entry if the key is present,
otherwise append. -/
def mapSet (m : List (Int × List Char)) (k : Int) (v : List Char) :
    List (Int × List Char) :=
  if m.any (fun p => p.1 = k) then
    m.map (fun p => if p.1 = k then (k, v) else p)
  else
    m ++ [(k, v)]

/-- Model of `replacementMap.get(index) || section.text` — JS `||` falls back both
when the key is absent (`undefined`) and when the stored string is empty
(the only falsy string). -/
def jsGetOr (m : List (Int × List Char)) (i : Nat) (fallback : List Char) :
    List Char :=
  match mapLookup m (Int.ofNat i) with
  | some t => if t = [] then fallback else t
  | none => fallback

/-- Worker for `processedReplacements`, carrying the running index. -/
def processedRepsFrom (m : List (Int × List Char)) :
    Nat → List HighlightedSection → List ProcessedReplacement
  | _, [] => []
  | i, s :: rest =>
    { originalText := s.text
      newText := jsGetOr m i s.text
      fullMatch := s.fullMatch } :: processedRepsFrom m (i + 1) rest

/-- The `highlightedSections.map((section, index) => …)` step of `serve`
(lines 2571–2579), building one `ProcessedReplacement` per section. -/
def processedReplacements (sections : List HighlightedSection)
    (m : List (Int × List Char)) : List ProcessedReplacement :=
  processedRepsFrom m 0 sections

/-! ## `generateAllReplacements` (source lines 1532–1663)

The HTTP round-trip is abstracted as an oracle `Nat → ApiResponse`: the
response received by the n-th attempt (0-based).  `toolArgs` is the parsed
argument list of the structured tool call when the response carries one
(`data.choices[0].message.tool_calls[0].function.arguments.replacements`,
each item a `{section_number, replacement_text}` pair). -/

/-- A response of the generation capability, as the source inspects it:
its HTTP status and, for successful responses, the parsed tool-call
arguments (if the expected structured call is present). -/
structure ApiResponse where
  status : Nat
  toolArgs : Option (List (Int × List Char))
deriving Repr

/-- Model of `response.ok`: HTTP status in the 2xx range. -/
def respOk (status : Nat) : Bool := 200 ≤ status && status < 300

/-- Outcome of `generateAllReplacements`, instrumented with the number of
HTTP attempts performed and the total backoff delay (ms) slept. -/
inductive GenResult where
  | success (map : List (Int × List Char)) (attempts : Nat) (delayMs : Nat)
  | failure (msg : List Char) (attempts : Nat) (delayMs : Nat)
deriving DecidableEq, Repr

/-- Model of `maxRetries` (line 1543). -/
def maxRetries : Nat := 5

/-- Model of `baseDelay` in milliseconds (line 1544). -/
def baseDelay : Nat := 2000

/-- Building `resultMap` from the parsed tool call (lines 1633–1637):
`resultMap.set(r.section_number - 1, r.replacement_text)` for each item. -/
def buildResultMap (args : List (Int × List Char)) : List (Int × List Char) :=
  args.foldl (fun m r => mapSet m (r.1 - 1) r.2) []

/-- The retry loop of `generateAllReplacements` (lines 1553–1662).
`fuel` counts the remaining iterations of `for (attempt = 0; attempt <
maxRetries; attempt++)`, so the loop is entered with `fuel = maxRetries`
and `attempt = 0`; falling out of the loop is the final
`throw new Error("Max retries exceeded")` (line 1662). -/
def generateLoop (responses : Nat → ApiResponse) :
    Nat → Nat → Nat → GenResult
  | 0, attempt, delayAcc => .failure ("Max retries exceeded".toList) attempt delayAcc
  | fuel + 1, attempt, delayAcc =>
    let r := responses attempt
    if respOk r.status then
      match r.toolArgs with
      | some args => .success (buildResultMap args) (attempt + 1) delayAcc
      | none => .failure ("Invalid AI response format".toList) (attempt + 1) delayAcc
    else if r.status = 429 then
      if attempt < maxRetries - 1 then
        generateLoop responses fuel (attempt + 1) (delayAcc + baseDelay * 2 ^ attempt)
      else
        .failure ("Rate limited: The AI service is busy. Please try again in a few minutes.".toList)
          (attempt + 1) delayAcc
    else if r.status = 402 then
      .failure ("AI service credits exhausted. Please try again later.".toList)
        (attempt + 1) delayAcc
    else
      .failure ("AI API error".toList) (attempt + 1) delayAcc

/-- Model of `Array.prototype.join(sep)`. -/
def joinSep (sep : List Char) : List (List Char) → List Char
  | [] => []
  | [x] => x
  | x :: y :: rest => x ++ sep ++ joinSep sep (y :: rest)

/-- Model of `sectionsText` (lines 1547–1549): the single prompt fragment that
enumerates every section, 1-indexed, with its context. -/
def sectionsText (sections : List HighlightedSection) : List Char :=
  joinSep ("\n\n".toList)
    (sections.enum.map fun p =>
      "[Section ".toList ++ (Nat.toDigits 10 (p.1 + 1)) ++ "]\nContext: ".toList
        ++ p.2.context ++ "\nHighlighted text to replace: \"".toList
        ++ p.2.text ++ "\"".toList)

/-- Model of `generateAllReplacements` (lines 1532–1663): builds the one prompt with
all sections and runs the retry loop against the capability oracle.  The
prompt only influences the oracle's answers, which are abstracted, so the
result is that of the loop. -/
def generateAllReplacements (responses : Nat → ApiResponse)
    (_instructionPrompt : List Char) (_sections : List HighlightedSection)
    (_marketData : List Char) : GenResult :=
  generateLoop responses maxRetries 0 0

/-! ## `extractHighlightedSections` (source lines 1407–1448)

The run pattern `/<w:r\b[^>]*>([\s\S]*?)<\/w:r>/g` and the inner patterns
have deterministic matching: `[^>]*` can only stop at the first `>`,
`[\s\S]*?` is lazy so it stops at the first `</w:r>`, and so on; each is
embedded as an explicit scanner. -/

/-- Split a list at the first occurrence of character `c`: the characters
before it (which therefore contain no `c`) and the rest after it.  This is
the deterministic semantics of `[^c]*` followed by a literal `c`. -/
def splitUntilChar (c : Char) : List Char → Option (List Char × List Char)
  | [] => none
  | x :: rest =>
    if x = c then some ([], rest)
    else match splitUntilChar c rest with
      | some (a, b) => some (x :: a, b)
      | none => none

/-- Split a list at the first occurrence of the (nonempty) pattern `pat`:
the characters before it and the rest after it.  This is the deterministic
semantics of a lazy `[\s\S]*?` followed by the literal `pat`. -/
def splitUntilSub (pat : List Char) : List Char → Option (List Char × List Char)
  | [] => none
  | x :: rest =>
    if pat.isPrefixOf (x :: rest) then some ([], (x :: rest).drop pat.length)
    else match splitUntilSub pat rest with
      | some (a, b) => some (x :: a, b)
      | none => none

/-- Try to match `/<w:r\b[^>]*>([\s\S]*?)<\/w:r>/` at the head of `l`,
returning `(fullMatch, content, rest)` on success.  The `\b` requires the
character after `<w:r` to be a non-word character (so `<w:rPr` does not
match); `[^>]*` runs to the first `>`; the lazy group runs to the first
`</w:r>`. -/
def tryRunAt (l : List Char) : Option (List Char × List Char × List Char) :=
  if ("<w:r".toList).isPrefixOf l then
    let after := l.drop 4
    match after with
    | [] => none
    | c :: _ =>
      if isWordChar c then none
      else
        match splitUntilChar '>' after with
        | none => none
        | some (attrs, afterGt) =>
          match splitUntilSub ("</w:r>".toList) afterGt with
          | none => none
          | some (content, rest) =>
            some ("<w:r".toList ++ attrs ++ ['>'] ++ content ++ "</w:r>".toList,
              content, rest)
  else none

/-- Model of `/<w:highlight\b[^\/]*\/>/.test(runContent)` (line 1422, first test):
somewhere in the content there is `<w:highlight`, followed by a non-word
character, then characters without `/` up to a `/` that is immediately
followed by `>`. -/
def hlTest1 : List Char → Bool
  | [] => false
  | c :: rest =>
    (if ("<w:highlight".toList).isPrefixOf (c :: rest) then
      match (c :: rest).drop 12 with
      | [] => false
      | d :: after =>
        if isWordChar d then false
        else
          match splitUntilChar '/' (d :: after) with
          | some (_, r) => (match r with | '>' :: _ => true | _ => false)
          | none => false
     else false) || hlTest1 rest

/-- Model of `/<w:highlight\b[^>]*>/.test(runContent)` (line 1422, second test):
somewhere in the content there is `<w:highlight`, followed by a non-word
character, with a `>` occurring later. -/
def hlTest2 : List Char → Bool
  | [] => false
  | c :: rest =>
    (if ("<w:highlight".toList).isPrefixOf (c :: rest) then
      match (c :: rest).drop 12 with
      | [] => false
      | d :: after => if isWordChar d then false else (d :: after).contains '>'
     else false) || hlTest2 rest

/-- Model of `hasHighlight` (line 1422). -/
def hasHighlight (content : List Char) : Bool :=
  hlTest1 content || hlTest2 content

/-- Try to match `/<w:t[^>]*>([^<]*)<\/w:t>/` at the head of `l`, returning
`(attrs, text, rest)` on success: `[^>]*` runs to the first `>`, `([^<]*)`
to the first `<`, which must start the literal `</w:t>`. -/
def tryWTAt (l : List Char) : Option (List Char × List Char × List Char) :=
  if ("<w:t".toList).isPrefixOf l then
    match splitUntilChar '>' (l.drop 4) with
    | none => none
    | some (attrs, after1) =>
      let txt := after1.takeWhile (fun c => c ≠ '<')
      let after2 := after1.dropWhile (fun c => c ≠ '<')
      if ("</w:t>".toList).isPrefixOf after2 then
        some (attrs, txt, after2.drop 6)
      else none
  else none

/-- The `runContent.matchAll(/<w:t[^>]*>([^<]*)<\/w:t>/g)` loop of lines
1425–1429, concatenating the captured text of every match.  `fuel` bounds
the scan (each step moves at least one character forward). -/
def wtTexts : Nat → List Char → List Char
  | 0, _ => []
  | _, [] => []
  | fuel + 1, c :: rest =>
    match tryWTAt (c :: rest) with
    | some (_, txt, restAfter) => txt ++ wtTexts fuel restAfter
    | none => wtTexts fuel rest

/-- Concatenated `<w:t>` text of a run's content (`runText`, lines 1425–1429). -/
def runTextOf (content : List Char) : List Char :=
  wtTexts (content.length + 1) content

/-- Push a run text into the sliding context buffer (lines 1432–1435):
`contextBuffer.push(runText)` then `if (length > 10) shift()`. -/
def bufferPush (buffer : List (List Char)) (t : List Char) : List (List Char) :=
  let b := buffer ++ [t]
  if b.length > 10 then b.drop 1 else b

/-- Model of `contextBuffer.slice(-5)` (line 1441). -/
def lastFive (l : List (List Char)) : List (List Char) :=
  l.drop (l.length - 5)

/-- The main `while ((runMatch = runPattern.exec(documentXml)) !== null)`
loop (lines 1417–1445): for each run match, in source order, push its text
into the context buffer when non-blank, and emit a `HighlightedSection`
when it is highlighted and non-blank — with `context` recorded from the
buffer *after* the push. -/
def scanRuns : Nat → List Char → List (List Char) → List HighlightedSection
  | 0, _, _ => []
  | _, [], _ => []
  | fuel + 1, c :: rest, buffer =>
    match tryRunAt (c :: rest) with
    | none => scanRuns fuel rest buffer
    | some (fullMatch, content, restAfter) =>
      let runText := runTextOf content
      let buffer' := if jsTrim runText ≠ [] then bufferPush buffer runText else buffer
      if hasHighlight content ∧ jsTrim runText ≠ [] then
        { text := runText
          context := joinSep [' '] (lastFive buffer')
          fullMatch := fullMatch } :: scanRuns fuel restAfter buffer'
      else
        scanRuns fuel restAfter buffer'

/-- Model of `extractHighlightedSections` (lines 1407–1448). -/
def extractHighlightedSections (documentXml : List Char) : List HighlightedSection :=
  scanRuns (documentXml.length + 1) documentXml []

/-! ## The no-highlight branch of `serve` (source lines 2552–2559) -/

/-- The decision `serve` takes right after scanning the client document. -/
inductive ScanDecision where
  | reject400 (errorMsg : List Char)
  | proceed (sections : List HighlightedSection)
deriving DecidableEq, Repr

/-- Lines 2552–2559: scan, and if `highlightedSections.length === 0` answer
the request with a 400 error; otherwise continue the pipeline with the
scanned sections. -/
def scanDecision (documentXml : List Char) : ScanDecision :=
  let sections := extractHighlightedSections documentXml
  if sections.length = 0 then
    .reject400 ("No highlighted text found in the client data document".toList)
  else
    .proceed sections

/-! ## `replaceHighlightedText` (source lines 1665–1694)

The substitution `modifiedXml.replace(new RegExp(escapeRegExp(fullMatch),
'g'), newRun)` is a global literal substring replacement (`escapeRegExp`
escapes every regex metacharacter).  The runs of the replacement string are
emitted without being rescanned, exactly as JS `replace` does. -/

/-- Global, non-overlapping, left-to-right literal replacement of `pat` by
`repl`, the semantics of `s.replace(new RegExp(escapeRegExp(pat), 'g'),
repl)` for a nonempty `pat`.  `fuel` bounds the scan. -/
def replaceAllSub (pat repl : List Char) : Nat → List Char → List Char
  | 0, s => s
  | _, [] => []
  | fuel + 1, c :: rest =>
    if pat ≠ [] ∧ pat.isPrefixOf (c :: rest) then
      repl ++ replaceAllSub pat repl fuel ((c :: rest).drop pat.length)
    else
      c :: replaceAllSub pat repl fuel rest

/-- The text substitution of lines 1679–1682:
`newRun.replace(/<w:t([^>]*)>[^<]*<\/w:t>/g, '<w:t$1>' + esc + '</w:t>')` —
each `<w:t…>…</w:t>` keeps its attributes (`$1`) and has its character
content replaced by the already-escaped new text. -/
def substWTText (esc : List Char) : Nat → List Char → List Char
  | 0, s => s
  | _, [] => []
  | fuel + 1, c :: rest =>
    match tryWTAt (c :: rest) with
    | some (attrs, _, restAfter) =>
      "<w:t".toList ++ attrs ++ ['>'] ++ esc ++ "</w:t>".toList
        ++ substWTText esc fuel restAfter
    | none => c :: substWTText esc fuel rest

/-- Try to match `/<w:highlight[^>]*\/>/` at the head of `l` (line 1685),
returning the rest after the match: `[^>]*` runs to the first `>`, which
must be immediately preceded by `/`. -/
def tryHLSelfAt (l : List Char) : Option (List Char) :=
  if ("<w:highlight".toList).isPrefixOf l then
    match splitUntilChar '>' (l.drop 12) with
    | some (a, r) => if a ≠ [] ∧ a.getLast? = some '/' then some r else none
    | none => none
  else none

/-- Model of `newRun.replace(/<w:highlight[^>]*\/>/g, '')` (line 1685). -/
def stripHLSelf : Nat → List Char → List Char
  | 0, s => s
  | _, [] => []
  | fuel + 1, c :: rest =>
    match tryHLSelfAt (c :: rest) with
    | some restAfter => stripHLSelf fuel restAfter
    | none => c :: stripHLSelf fuel rest

/-- Scan for the first occurrence of `</w:highlight>` reachable without
crossing a line terminator (the lazy `.*?` of the paired-tag pattern does
not match `\n`/`\r`), returning the rest after it. -/
def scanToCloseHL : List Char → Option (List Char)
  | [] => none
  | c :: rest =>
    if ("</w:highlight>".toList).isPrefixOf (c :: rest) then
      some ((c :: rest).drop 14)
    else if c = '\n' ∨ c = '\r' then none
    else scanToCloseHL rest

/-- Try to match `/<w:highlight[^>]*>.*?<\/w:highlight>/` at the head of
`l` (line 1686), returning the rest after the match. -/
def tryHLPairAt (l : List Char) : Option (List Char) :=
  if ("<w:highlight".toList).isPrefixOf l then
    match splitUntilChar '>' (l.drop 12) with
    | some (_, r) => scanToCloseHL r
    | none => none
  else none

/-- Model of `newRun.replace(/<w:highlight[^>]*>.*?<\/w:highlight>/g, '')` (line 1686). -/
def stripHLPair : Nat → List Char → List Char
  | 0, s => s
  | _, [] => []
  | fuel + 1, c :: rest =>
    match tryHLPairAt (c :: rest) with
    | some restAfter => stripHLPair fuel restAfter
    | none => c :: stripHLPair fuel rest

/-- Building `newRun` from a replacement (lines 1676–1686): substitute the
`<w:t>` content with the escaped new text, then remove self-closing and
paired `<w:highlight>` markup from the run. -/
def buildNewRun (r : ProcessedReplacement) : List Char :=
  let step1 := substWTText (escapeXml r.newText) (r.fullMatch.length + 1) r.fullMatch
  let step2 := stripHLSelf (step1.length + 1) step1
  stripHLPair (step2.length + 1) step2

/-- Model of `replaceHighlightedText` (lines 1665–1694): sequentially, for each
replacement, substitute every occurrence of its original run markup in the
current XML by the rewritten run.  There is no further pass after the loop. -/
def replaceHighlightedText (documentXml : List Char)
    (replacements : List ProcessedReplacement) : List Char :=
  replacements.foldl
    (fun xml r => replaceAllSub r.fullMatch (buildNewRun r) (xml.length + 1) xml)
    documentXml

/-! ## `extractPercentageDataFromReplacements` (source lines 1722–1845)

Percentage values produced by `parseFloat` on the `(\d+\.?\d*)` captures are
decimal fractions, modelled as `ℚ`.  Each regex again has deterministic
matching (digits cannot re-match `\s`, `%` or a keyword, so greedy classes
never backtrack) and is embedded as a scanner. -/

/-- Numeric value of a digit string. -/
def natOfDigits (l : List Char) : ℕ :=
  l.foldl (fun n c => 10 * n + (c.toNat - '0'.toNat)) 0

/-- Model of `parseFloat` on a `(\d+\.?\d*)` capture (digits, optional dot, digits). -/
def parseFloatQ (numStr : List Char) : ℚ :=
  let ip := numStr.takeWhile (fun c => c ≠ '.')
  let fp := (numStr.dropWhile (fun c => c ≠ '.')).drop 1
  (natOfDigits ip : ℚ) + (natOfDigits fp : ℚ) / (10 : ℚ) ^ fp.length

/-- Match `(\d+\.?\d*)` at the head of `l`: one or more digits, optionally a
dot and more digits.  Returns the capture and the rest. -/
def tryNumAt (l : List Char) : Option (List Char × List Char) :=
  match l with
  | [] => none
  | c :: _ =>
    if isDigitChar c then
      let d1 := l.takeWhile isDigitChar
      let r1 := l.dropWhile isDigitChar
      match r1 with
      | '.' :: r2 => some (d1 ++ '.' :: r2.takeWhile isDigitChar, r2.dropWhile isDigitChar)
      | _ => some (d1, r1)
    else none

/-- Model of `\s*`. -/
def skipWs (l : List Char) : List Char := l.dropWhile isJsWs

/-- The keyword alternative `(?:equit(?:y|ies)|growth|stocks)` of the equity
pattern (line 1734). -/
def kwEquity (l : List Char) : Bool :=
  (if ("equit".toList).isPrefixOf l then
    ("y".toList).isPrefixOf (l.drop 5) || ("ies".toList).isPrefixOf (l.drop 5)
   else false)
  || ("growth".toList).isPrefixOf l || ("stocks".toList).isPrefixOf l

/-- The keyword alternative `(?:bonds?|defensive|fixed\s*income)` of the
bond pattern (line 1741). -/
def kwBond (l : List Char) : Bool :=
  ("bond".toList).isPrefixOf l || ("defensive".toList).isPrefixOf l
  || (if ("fixed".toList).isPrefixOf l then
        ("income".toList).isPrefixOf (skipWs (l.drop 5))
      else false)

/-- Try to match `(\d+\.?\d*)\s*%?\s*(?:in\s+)?<keyword>` at the head of
`l`, returning the parsed captured number. -/
def tryAllocAt (kw : List Char → Bool) (l : List Char) : Option ℚ :=
  match tryNumAt l with
  | none => none
  | some (numStr, r0) =>
    let r1 := skipWs r0
    let r2 := match r1 with | '%' :: t => t | _ => r1
    let r3 := skipWs r2
    let r4 :=
      if ("in".toList).isPrefixOf r3
          && (match r3.drop 2 with | c :: _ => isJsWs c | [] => false) then
        skipWs (r3.drop 2)
      else r3
    if kw r4 then some (parseFloatQ numStr) else none

/-- Leftmost match of the allocation pattern over the whole string
(`text.match(...)` and `parseFloat` on its first capture). -/
def findAlloc (kw : List Char → Bool) : List Char → Option ℚ
  | [] => none
  | c :: rest =>
    match tryAllocAt kw (c :: rest) with
    | some q => some q
    | none => findAlloc kw rest

/-- Try to match `(\d+\.?\d*)\s*%` at the head of `l`, returning the parsed
number and the rest after the `%`. -/
def tryPctAt (l : List Char) : Option (ℚ × List Char) :=
  match tryNumAt l with
  | none => none
  | some (numStr, r0) =>
    match skipWs r0 with
    | '%' :: t => some (parseFloatQ numStr, t)
    | _ => none

/-- All matches of `/(\d+\.?\d*)\s*%/g` over a string, in order
(lines 1763–1766). -/
def collectPercents : Nat → List Char → List ℚ
  | 0, _ => []
  | _, [] => []
  | fuel + 1, c :: rest =>
    match tryPctAt (c :: rest) with
    | some (q, restAfter) => q :: collectPercents fuel restAfter
    | none => collectPercents fuel rest

/-- One entry of `allPercentages` (lines 1760–1776). -/
structure PctEntry where
  value : ℚ
  newText : List Char
  originalText : List Char
deriving DecidableEq, Repr

/-- Building `allPercentages` (lines 1762–1776): every percentage-shaped
number in any replacement's new text with `0 < val ≤ 100`. -/
def collectEntries (replacements : List ProcessedReplacement) : List PctEntry :=
  replacements.flatMap fun r =>
    ((collectPercents (r.newText.length + 1) r.newText).filter
        fun v => 0 < v ∧ v ≤ 100).map
      fun v => { value := v, newText := r.newText, originalText := r.originalText }

/-- Smallest power of ten clearing the denominator of a decimal rational
(with fuel; every value in this development is a decimal fraction). -/
def qExp : ℚ → Nat → Nat
  | _, 0 => 0
  | q, fuel + 1 => if q.den = 1 then 0 else 1 + qExp (q * 10) fuel

/-- Model of `Number.prototype.toString` for the nonnegative decimal fractions this
engine handles: shortest decimal notation, e.g. `54.25`, `45.8`, `40`. -/
def qToJsString (q : ℚ) : List Char :=
  let k := qExp q 25
  let s := Nat.toDigits 10 (q * 10 ^ k).num.toNat
  if k = 0 then s
  else
    let s' := List.replicate (k + 1 - s.length) '0' ++ s
    s'.take (s'.length - k) ++ '.' :: s'.drop (s'.length - k)

/-- Model of `Math.round(x)`: half rounds toward positive infinity. -/
def jsRound (x : ℚ) : ℤ := ⌊x + 1 / 2⌋

/-- Model of `Math.round(x * 10) / 10`, the 1-decimal rounding of lines 1806/1809. -/
def round1dp (x : ℚ) : ℚ := (jsRound (x * 10) : ℚ) / 10

/-- Strategy 1 (lines 1730–1746): direct equity/bond pattern matches over
the lowercased new texts, first match wins for each side. -/
def phase1Run : List ProcessedReplacement → Option ℚ × Option ℚ → Option ℚ × Option ℚ
  | [], s => s
  | r :: rest, (g, d) =>
    let text := jsLower r.newText
    let g' := match g, findAlloc kwEquity text with
      | none, some v => some v
      | _, _ => g
    let d' := match d, findAlloc kwBond text with
      | none, some v => some v
      | _, _ => d
    phase1Run rest (g', d')

/-- Strategy 2 (lines 1780–1802): for each collected percentage, in order,
adopt it for a still-unknown side when its text block contains the matching
keywords and the percentage's canonical decimal rendering. -/
def strat2Run : List PctEntry → Option ℚ × Option ℚ → Option ℚ × Option ℚ
  | [], s => s
  | e :: rest, (g, d) =>
    let text := jsLower e.newText
    let pctStr := qToJsString e.value
    let g' :=
      if g = none
          ∧ (containsSub ("growth".toList) text || containsSub ("equit".toList) text
              || containsSub ("stock".toList) text)
          ∧ containsSub pctStr text then
        some e.value
      else g
    let d' :=
      if d = none
          ∧ (containsSub ("defensive".toList) text || containsSub ("bond".toList) text
              || containsSub ("fixed".toList) text)
          ∧ containsSub pctStr text then
        some e.value
      else d
    strat2Run rest (g', d')

/-- Strategy 2 with its guard `if (growthPercent === null ||
defensivePercent === null)` (line 1781). -/
def strat2Guarded (entries : List PctEntry) (s : Option ℚ × Option ℚ) :
    Option ℚ × Option ℚ :=
  if s.1 = none ∨ s.2 = none then strat2Run entries s else s

/-- Strategy 3 (lines 1804–1811): complement a single known side. -/
def strat3 : Option ℚ × Option ℚ → Option ℚ × Option ℚ
  | (some g, none) => (some g, some (round1dp (100 - g)))
  | (none, some d) => (some (round1dp (100 - d)), some d)
  | s => s

/-- The inner `j` loop of strategy 4: first later value pairing with `x` to
within 2 of 100; the larger becomes growth. -/
def pairScanInner (x : ℚ) : List ℚ → Option (ℚ × ℚ)
  | [] => none
  | y :: rest =>
    if |x + y - 100| < 2 then some (max x y, min x y) else pairScanInner x rest

/-- The outer `i` loop of strategy 4 (lines 1814–1831). -/
def pairScan : List ℚ → Option (ℚ × ℚ)
  | [] => none
  | x :: rest =>
    match pairScanInner x rest with
    | some p => some p
    | none => pairScan rest

/-- Strategy 4 with its guard (both sides unknown and at least two
collected percentages). -/
def strat4Guarded (entries : List PctEntry) (s : Option ℚ × Option ℚ) :
    Option ℚ × Option ℚ :=
  if s.1 = none ∧ s.2 = none ∧ 2 ≤ entries.length then
    match pairScan (entries.map PctEntry.value) with
    | some (a, b) => (some a, some b)
    | none => s
  else s

/-- Model of `PieChartData` (source interface, lines 1383–1388). -/
structure PieChartData where
  imagePath : List Char
  growthPercent : ℚ
  defensivePercent : ℚ
  labels : List (List Char)
deriving DecidableEq, Repr

/-- The labels of every returned `PieChartData`. -/
def pieLabels : List (List Char) := ["Equities".toList, "Bonds".toList]

/-- Model of `extractPercentageDataFromReplacements` (lines 1722–1845): strategies in
source order with the early return after the direct matches. -/
def extractPercentageDataFromReplacements
    (replacements : List ProcessedReplacement) (_originalDocXml : List Char) :
    Option PieChartData :=
  let s1 := phase1Run replacements (none, none)
  match s1 with
  | (some g, some d) => some ⟨[], g, d, pieLabels⟩
  | _ =>
    let entries := collectEntries replacements
    let s2 := strat2Guarded entries s1
    let s3 := strat3 s2
    let s4 := strat4Guarded entries s3
    match s4 with
    | (some g, some d) => some ⟨[], g, d, pieLabels⟩
    | _ => none

/-! ## `replacePieCharts` (source lines 2293–2440)

The ZIP package is modelled as a list of entries.  Three string-search
primitives of the function (the allocation-context regex scan over
`modifiedXml`, the relationship-id lookup in the `.rels` text, and the
`<a:blip r:embed=…>` position search) and the external image-generation
capability (`generatePieChart`) are abstracted as oracle parameters: the
claim under verification is a frame property that holds for every behavior
of these searches. -/

/-- Content of a ZIP entry. -/
inductive FileData where
  | text (s : List Char)
  | bytes (b : List Nat)
deriving DecidableEq, Repr

/-- One ZIP entry (`relativePath`, `file.dir`, content). -/
structure ZipEntry where
  path : List Char
  isDir : Bool
  data : FileData
deriving DecidableEq, Repr

/-- The in-memory package: the entry list, in archive order. -/
abbrev Zip := List ZipEntry

/-- Model of `zip.file(path)` (lookup). -/
def zipLookup (zip : Zip) (p : List Char) : Option ZipEntry :=
  zip.find? fun e => e.path = p

/-- Model of `file.async("text")`: the textual content of an entry. -/
def entryText : FileData → List Char
  | .text s => s
  | .bytes _ => []

/-- Model of `zip.file(path, data)` (write): overwrite the entry if present,
otherwise append a new file entry. -/
def zipWrite (zip : Zip) (p : List Char) (d : FileData) : Zip :=
  if zip.any (fun e => e.path = p) then
    zip.map fun e => if e.path = p then { e with data := d, isDir := false } else e
  else
    zip ++ [⟨p, false, d⟩]

/-- Model of `String.prototype.endsWith`. -/
def endsWithSub (suffix l : List Char) : Bool :=
  suffix.reverse.isPrefixOf l.reverse

/-- The image-collection loop (lines 2310–2318): entries under
`word/media/`, not directories, whose lowercased path ends in
`.png`/`.jpg`/`.jpeg`. -/
def imageFilesOf (zip : Zip) : List (List Char) :=
  (zip.filter fun e =>
      ("word/media/".toList).isPrefixOf e.path && !e.isDir &&
        (endsWithSub (".png".toList) (jsLower e.path)
          || endsWithSub (".jpg".toList) (jsLower e.path)
          || endsWithSub (".jpeg".toList) (jsLower e.path))).map ZipEntry.path

/-- Model of `imagePath.split("/").pop()` (line 2357): the last `/`-separated
component. -/
def lastComponent (p : List Char) : List Char :=
  ((p.reverse).takeWhile (fun c => c ≠ '/')).reverse

/-- One pie-chart candidate (lines 2354, 2386). -/
structure Candidate where
  path : List Char
  position : Nat
  name : List Char
deriving DecidableEq, Repr

/-- The candidate-collection loop (lines 2354–2390): skip logo/header/footer
names, resolve the relationship id, locate the image's usage position in the
document XML, and skip positions in the first 10000 characters. -/
def collectCandidates (findRelId : List Char → List Char → Option (List Char))
    (findBlipPos : List Char → List Char → Option Nat)
    (relsContent modifiedXml : List Char) :
    List (List Char) → List Candidate
  | [] => []
  | imagePath :: rest =>
    if containsSub ("logo".toList) (jsLower (lastComponent imagePath))
        || containsSub ("header".toList) (jsLower (lastComponent imagePath))
        || containsSub ("footer".toList) (jsLower (lastComponent imagePath)) then
      collectCandidates findRelId findBlipPos relsContent modifiedXml rest
    else
      match findRelId relsContent (lastComponent imagePath) with
      | none => collectCandidates findRelId findBlipPos relsContent modifiedXml rest
      | some rId =>
        match findBlipPos modifiedXml rId with
        | none => collectCandidates findRelId findBlipPos relsContent modifiedXml rest
        | some pos =>
          if pos < 10000 then
            collectCandidates findRelId findBlipPos relsContent modifiedXml rest
          else
            ⟨imagePath, pos, lastComponent imagePath⟩
              :: collectCandidates findRelId findBlipPos relsContent modifiedXml rest

/-- Insertion of one candidate into a position-sorted list (ascending). -/
def insertByPos (c : Candidate) : List Candidate → List Candidate
  | [] => [c]
  | x :: rest =>
    if c.position ≤ x.position then c :: x :: rest else x :: insertByPos c rest

/-- Model of `imageCandidates.sort((a, b) => a.position - b.position)` (line 2398). -/
def sortByPos : List Candidate → List Candidate
  | [] => []
  | c :: rest => insertByPos c (sortByPos rest)

/-- Worker for the closest-to-context loop: `b` is the best candidate so
far; a later candidate replaces it only on strictly smaller distance. -/
def pickClosestGo (ctx : Nat) : Candidate → List Candidate → Candidate
  | b, [] => b
  | b, c :: rest =>
    pickClosestGo ctx
      (if |(c.position : ℤ) - ctx| < |(b.position : ℤ) - ctx| then c else b) rest

/-- The closest-to-context selection loop (lines 2404–2414): the candidate
minimising `Math.abs(position - allocationContextPosition)`, the first
minimum kept (`distance < minDistance` starts from `Infinity`, so the first
candidate is always adopted). -/
def pickClosest (ctx : Nat) : List Candidate → Option Candidate
  | [] => none
  | c :: rest => some (pickClosestGo ctx c rest)

/-- The best-candidate selection of lines 2402–2419: closest to the
allocation context when one was found, otherwise the last candidate. -/
def chooseBest (ctxPos : Option Nat) (sorted : List Candidate) : Option Candidate :=
  match ctxPos with
  | some ctx => pickClosest ctx sorted
  | none => sorted.getLast?

/-- Model of `replacePieCharts` (lines 2293–2440), parameterised over the search
primitives and the image-generation capability.  Returns the updated
package together with the `modifiedXml` field of the result object. -/
def replacePieCharts
    (findCtxPos : List Char → Option Nat)
    (findRelId : List Char → List Char → Option (List Char))
    (findBlipPos : List Char → List Char → Option Nat)
    (generatePieChart : PieChartData → Option (List Nat))
    (zip : Zip) (documentXml modifiedXml : List Char)
    (replacements : List ProcessedReplacement) : Zip × List Char :=
  match extractPercentageDataFromReplacements replacements documentXml with
  | none => (zip, modifiedXml)
  | some percentageData =>
    let imageFiles := imageFilesOf zip
    if imageFiles.isEmpty then (zip, modifiedXml)
    else
      match zipLookup zip ("word/_rels/document.xml.rels".toList) with
      | none => (zip, modifiedXml)
      | some relsFile =>
        let relsContent := entryText relsFile.data
        let ctxPos := findCtxPos modifiedXml
        let candidates :=
          collectCandidates findRelId findBlipPos relsContent modifiedXml imageFiles
        if candidates.isEmpty then (zip, modifiedXml)
        else
          match chooseBest ctxPos (sortByPos candidates) with
          | none => (zip, modifiedXml)
          | some bestCandidate =>
            match generatePieChart percentageData with
            | none => (zip, modifiedXml)
            | some newPieChartData =>
              (zipWrite zip bestCandidate.path (.bytes newPieChartData), modifiedXml)

/-! ## Accessors and concrete demonstration inputs -/

/-- Number of HTTP attempts a generation outcome consumed. -/
def GenResult.attemptCount : GenResult → Nat
  | .success _ a _ => a
  | .failure _ a _ => a

/-- Total backoff delay (ms) a generation outcome slept. -/
def GenResult.delayTotal : GenResult → Nat
  | .success _ _ d => d
  | .failure _ _ d => d

/-- A run carrying highlight markup, with text `A`. -/
def runA : List Char :=
  "<w:r><w:rPr><w:highlight w:val=\"yellow\"/></w:rPr><w:t>A</w:t></w:r>".toList

/-- A second highlighted run in the same paragraph, with text `B`. -/
def runB : List Char :=
  "<w:r><w:rPr><w:highlight w:val=\"yellow\"/></w:rPr><w:t>B</w:t></w:r>".toList

/-- A paragraph holding the two highlighted runs `runA` and `runB`. -/
def paraAB : List Char := "<w:p>".toList ++ runA ++ runB ++ "</w:p>".toList

/-- The replacement rewriting `runA`'s text `A` to `X`. -/
def repA : ProcessedReplacement := ⟨"A".toList, "X".toList, runA⟩

/-- The markup of the highlighted run with text `Two` in `docOneTwo`. -/
def runTwo : List Char :=
  "<w:r><w:rPr><w:highlight w:val=\"y\"/></w:rPr><w:t>Two</w:t></w:r>".toList

/-- A document with one plain run (`One`) followed by one highlighted run
(`Two`). -/
def docOneTwo : List Char :=
  "<w:p><w:r><w:t>One</w:t></w:r>".toList ++ runTwo ++ "</w:p>".toList

/-- A document whose single run carries no highlight markup. -/
def docPlain : List Char := "<w:p><w:r><w:t>Hi</w:t></w:r></w:p>".toList

/-- A replacement whose new text states an equity percentage with two
decimal places. -/
def repEq5425 : ProcessedReplacement :=
  ⟨"x".toList, "54.25% in equities".toList, "m".toList⟩

/-- A replacement whose new text states an equity percentage with one
decimal place. -/
def repEq625 : ProcessedReplacement :=
  ⟨"x".toList, "62.5% growth".toList, "m".toList⟩

/-- Demo list of 120 sections, as scanned from a large client document. -/
def sections120 : List HighlightedSection :=
  (List.range 120).map fun i => ⟨'s' :: Nat.toDigits 10 i, [], []⟩

/-- A model response covering all 120 sections: the structured tool call
returns `{section_number: i+1, replacement_text: tᵢ}` for every section. -/
def args120 : List (Int × List Char) :=
  (List.range 120).map fun (i : Nat) => ((i : Int) + 1, 't' :: Nat.toDigits 10 i)

/-- An oracle whose first response already succeeds with `args120`. -/
def oracle120 : Nat → ApiResponse := fun _ => ⟨200, some args120⟩

/-- A demonstration package: a document part and one embedded media image. -/
def zipDemo : Zip :=
  [⟨"word/document.xml".toList, false, .text ("<w:p/>".toList)⟩,
   ⟨"word/_rels/document.xml.rels".toList, false, .text ("<Relationships/>".toList)⟩,
   ⟨"word/media/image1.png".toList, false, .bytes [1, 2, 3]⟩]

/-! ## General lemmas -/

/-- Index-wise description of the `ProcessedReplacement` list built from a
section list and a replacement map. -/
theorem processedRepsFrom_getElem (m : List (Int × List Char)) :
    ∀ (ss : List HighlightedSection) (k i : Nat),
      (processedRepsFrom m k ss)[i]?
        = ss[i]?.map fun s =>
            ⟨s.text, jsGetOr m (k + i) s.text, s.fullMatch⟩ := by
  intro ss
  induction ss with
  | nil => intro k i; simp [processedRepsFrom]
  | cons s rest ih =>
    intro k i
    cases i with
    | zero => simp [processedRepsFrom]
    | succ j =>
      have hkj : k + 1 + j = k + (j + 1) := by omega
      simp [processedRepsFrom, ih (k + 1) j, hkj]

/-- Length preservation for the built replacement list. -/
theorem processedRepsFrom_length (m : List (Int × List Char)) :
    ∀ (ss : List HighlightedSection) (k : Nat),
      (processedRepsFrom m k ss).length = ss.length := by
  intro ss
  induction ss with
  | nil => intro k; simp [processedRepsFrom]
  | cons s rest ih => intro k; simp [processedRepsFrom, ih (k + 1)]

/-! ## Claim C1 -/

/-- C1: for every client document, the pipeline builds exactly one
`ProcessedReplacement` per scanned highlighted section, order-aligned (the
record at position `i` carries section `i`'s original text and markup), and
a section whose 0-indexed position is absent from the model's returned
replacement map receives its own original text as `newText`. -/
theorem c1_one_to_one_with_fallback (doc : List Char) (m : List (Int × List Char)) :
    (processedReplacements (extractHighlightedSections doc) m).length
        = (extractHighlightedSections doc).length
    ∧ ∀ i s, (extractHighlightedSections doc)[i]? = some s →
        (processedReplacements (extractHighlightedSections doc) m)[i]?
            = some ⟨s.text, jsGetOr m i s.text, s.fullMatch⟩
          ∧ (mapLookup m (Int.ofNat i) = none →
              (processedReplacements (extractHighlightedSections doc) m)[i]?
                = some ⟨s.text, s.text, s.fullMatch⟩) := by
  constructor
  · exact processedRepsFrom_length m _ 0
  · intro i s hs
    have h := processedRepsFrom_getElem m (extractHighlightedSections doc) 0 i
    rw [hs] at h
    simp only [Nat.zero_add, Option.map_some] at h
    simp only [processedReplacements]
    refine ⟨h, fun hnone => ?_⟩
    rw [h]
    have hnone2 : mapLookup m (i : ℤ) = none := hnone
    simp [jsGetOr, hnone2]

/-- Witness for C1 at a concrete document and an empty replacement map. -/
theorem c1_one_to_one_with_fallback_witness :
    (extractHighlightedSections docOneTwo)[0]?
        = some ⟨"Two".toList, "One Two".toList, runTwo⟩
    ∧ (processedReplacements (extractHighlightedSections docOneTwo) [])[0]?
        = some ⟨"Two".toList, "Two".toList, runTwo⟩ := by
  refine ⟨by decide, ?_⟩
  have h := ((c1_one_to_one_with_fallback docOneTwo []).2 0
    ⟨"Two".toList, "One Two".toList, runTwo⟩ (by decide)).2 (by decide)
  exact h

/-! ## Claim C9 -/

/-- C9: when the model's returned map assigns a section's 0-indexed
position the empty string, the produced record's `newText` is the section's
original text — the falsy empty value triggers the same fallback as a
missing key. -/
theorem c9_empty_maps_to_original (sections : List HighlightedSection)
    (m : List (Int × List Char)) (i : Nat) (s : HighlightedSection)
    (hm : mapLookup m (Int.ofNat i) = some [])
    (hs : sections[i]? = some s) :
    (processedReplacements sections m)[i]? = some ⟨s.text, s.text, s.fullMatch⟩ := by
  have h := processedRepsFrom_getElem m sections 0 i
  rw [hs] at h
  simp only [Nat.zero_add, Option.map_some] at h
  simp only [processedReplacements]
  rw [h]
  have hm2 : mapLookup m (i : ℤ) = some [] := hm
  simp [jsGetOr, hm2]

/-- Witness for C9: a map sending position 0 to the empty string. -/
theorem c9_empty_maps_to_original_witness :
    mapLookup [((0 : Int), ([] : List Char))] (Int.ofNat 0) = some []
    ∧ (processedReplacements (extractHighlightedSections docOneTwo)
          [((0 : Int), ([] : List Char))])[0]?
        = some ⟨"Two".toList, "Two".toList, runTwo⟩ :=
  ⟨by decide,
    c9_empty_maps_to_original (extractHighlightedSections docOneTwo)
      [((0 : Int), ([] : List Char))] 0
      ⟨"Two".toList, "One Two".toList, runTwo⟩ (by decide) (by decide)⟩

/-! ## Claim C8 -/

/-- C8 counterexample: for a client document with zero highlighted runs the
pipeline does not enter any auto-detect identify-and-replace mode — the
request is answered with the 400 error of lines 2554–2559.  (The final
snapshot of the source has no auto-detect path at all.) -/
theorem c8_counterexample_no_autodetect :
    extractHighlightedSections docPlain = []
    ∧ scanDecision docPlain
        = .reject400 ("No highlighted text found in the client data document".toList) := by
  constructor
  · decide
  · decide

/-- C8 amended: when the scan of the client document yields zero
highlighted sections, `serve` rejects the request with the 400 error
`No highlighted text found in the client data document`; no auto-detect
mode exists. -/
theorem c8_zero_sections_rejected (doc : List Char)
    (h : extractHighlightedSections doc = []) :
    scanDecision doc
      = .reject400 ("No highlighted text found in the client data document".toList) := by
  simp [scanDecision, h]

/-- Witness for the amended C8 at a concrete highlight-free document. -/
theorem c8_zero_sections_rejected_witness :
    extractHighlightedSections docPlain = []
    ∧ scanDecision docPlain
        = .reject400 ("No highlighted text found in the client data document".toList) :=
  ⟨by decide, c8_zero_sections_rejected docPlain (by decide)⟩

/-! ## Claim C2 -/

/-- Stepping lemma: a 429 on a non-final attempt retries with the
exponential delay added. -/
theorem generateLoop_429_step (responses : Nat → ApiResponse)
    (fuel attempt acc : Nat) (h : (responses attempt).status = 429)
    (hlt : attempt < maxRetries - 1) :
    generateLoop responses (fuel + 1) attempt acc
      = generateLoop responses fuel (attempt + 1) (acc + baseDelay * 2 ^ attempt) := by
  have hok : respOk (responses attempt).status = false := by
    rw [h]; decide
  simp [generateLoop, hok, eq_true h, hlt]

/-- Stepping lemma: a 429 on the final attempt raises the rate-limit error. -/
theorem generateLoop_429_last (responses : Nat → ApiResponse)
    (fuel attempt acc : Nat) (h : (responses attempt).status = 429)
    (hge : ¬ attempt < maxRetries - 1) :
    generateLoop responses (fuel + 1) attempt acc
      = .failure
          ("Rate limited: The AI service is busy. Please try again in a few minutes.".toList)
          (attempt + 1) acc := by
  have hok : respOk (responses attempt).status = false := by
    rw [h]; decide
  simp [generateLoop, hok, eq_true h, hge]

/-- C2 corrected: a 402 response is *not* retried — the call fails on the
first attempt with zero delay, refuting the claimed shared 429/402 retry
policy.  The concrete oracle answers 402 to every request. -/
theorem c2_counterexample_402_not_retried :
    generateAllReplacements (fun _ => ⟨402, none⟩) [] [] []
        = .failure ("AI service credits exhausted. Please try again later.".toList) 1 0
    ∧ (1 : Nat) ≠ 5 := by
  constructor
  · decide
  · decide

/-- C2 amended: only HTTP 429 is retried, up to 5 attempts total with delay
`2000 × 2^attempt` ms (total 2000+4000+8000+16000 = 30000 ms when every
attempt is rate-limited); 402 — like every other non-success status — fails
immediately on the first attempt with no delay. -/
theorem c2_retry_only_429 :
    (∀ (responses : Nat → ApiResponse) p ss md,
      (∀ i, (responses i).status = 429) →
        generateAllReplacements responses p ss md
          = .failure
              ("Rate limited: The AI service is busy. Please try again in a few minutes.".toList)
              5 (2000 + 4000 + 8000 + 16000))
    ∧ (∀ (responses : Nat → ApiResponse) p ss md,
        respOk (responses 0).status = false → (responses 0).status ≠ 429 →
          ∃ msg, generateAllReplacements responses p ss md = .failure msg 1 0) := by
  constructor
  · intro responses p ss md h
    show generateLoop responses maxRetries 0 0 = _
    rw [show maxRetries = 4 + 1 from rfl]
    rw [generateLoop_429_step responses 4 0 0 (h 0) (by decide)]
    rw [show (4 : Nat) = 3 + 1 from rfl]
    rw [generateLoop_429_step responses 3 1 _ (h 1) (by decide)]
    rw [show (3 : Nat) = 2 + 1 from rfl]
    rw [generateLoop_429_step responses 2 2 _ (h 2) (by decide)]
    rw [show (2 : Nat) = 1 + 1 from rfl]
    rw [generateLoop_429_step responses 1 3 _ (h 3) (by decide)]
    rw [generateLoop_429_last responses 0 4 _ (h 4) (by decide)]
    norm_num [baseDelay]
  · intro responses p ss md hok hne
    show ∃ msg, generateLoop responses maxRetries 0 0 = .failure msg 1 0
    rw [show maxRetries = 4 + 1 from rfl]
    by_cases h402 : (responses 0).status = 402
    · refine ⟨"AI service credits exhausted. Please try again later.".toList, ?_⟩
      have e402 : respOk 402 = false := by decide
      simp [generateLoop, hok, hne, h402, e402]
    · refine ⟨"AI API error".toList, ?_⟩
      simp [generateLoop, hok, hne, h402]

/-- Witness for the amended C2: an always-429 oracle exhausts the retry
budget; a 500 oracle fails at once. -/
theorem c2_retry_only_429_witness :
    generateAllReplacements (fun _ => ⟨429, none⟩) [] [] []
        = .failure
            ("Rate limited: The AI service is busy. Please try again in a few minutes.".toList)
            5 (2000 + 4000 + 8000 + 16000)
    ∧ ∃ msg, generateAllReplacements (fun _ => ⟨500, none⟩) [] [] []
        = .failure msg 1 0 :=
  ⟨c2_retry_only_429.1 (fun _ => ⟨429, none⟩) [] [] [] (fun _ => rfl),
    c2_retry_only_429.2 (fun _ => ⟨500, none⟩) [] [] [] (by decide) (by decide)⟩

/-! ## Claim C3 -/

/-- Folding `mapSet` over items with pairwise-distinct fresh keys appends
them in order. -/
theorem foldl_mapSet_fresh :
    ∀ (args : List (Int × List Char)) (acc : List (Int × List Char)),
      (∀ r ∈ args, ∀ q ∈ acc, q.1 ≠ r.1 - 1) →
      (args.map fun r => r.1 - 1).Nodup →
      args.foldl (fun m r => mapSet m (r.1 - 1) r.2) acc
        = acc ++ args.map fun r => (r.1 - 1, r.2) := by
  intro args
  induction args with
  | nil => intro acc _ _; simp
  | cons r rest ih =>
    intro acc hfresh hnodup
    have hnotin : acc.any (fun q => q.1 = r.1 - 1) = false := by
      rw [List.any_eq_false]
      intro q hq
      simpa using hfresh r (by simp) q hq
    have hset : mapSet acc (r.1 - 1) r.2 = acc ++ [(r.1 - 1, r.2)] := by
      simp [mapSet, hnotin]
    simp only [List.foldl_cons, hset]
    rw [ih (acc ++ [(r.1 - 1, r.2)]) ?_ ?_]
    · simp
    · intro r2 hr2 q hq
      rcases List.mem_append.mp hq with hq | hq
      · exact hfresh r2 (by simp [hr2]) q hq
      · have hkey : r.1 - 1 ∉ rest.map fun r3 => r3.1 - 1 := by
          have hn := hnodup
          simp only [List.map_cons, List.nodup_cons] at hn
          exact hn.1
        simp only [List.mem_singleton] at hq
        subst hq
        intro hcontra
        exact hkey (by
          simp only [List.mem_map]
          exact ⟨r2, hr2, by rw [← hcontra]⟩)
    · have hn := hnodup
      simp only [List.map_cons, List.nodup_cons] at hn
      exact hn.2

/-- Lookup distributes over an appended association list. -/
theorem mapLookup_append (m1 m2 : List (Int × List Char)) (k : Int) :
    mapLookup (m1 ++ m2) k
      = match mapLookup m1 k with
        | some v => some v
        | none => mapLookup m2 k := by
  induction m1 with
  | nil => simp [mapLookup]
  | cons p rest ih =>
    by_cases hp : p.1 = k
    · unfold mapLookup
      rw [List.cons_append, List.find?_cons_of_pos _ (by simpa using hp),
        List.find?_cons_of_pos _ (by simpa using hp)]
    · unfold mapLookup at ih ⊢
      rw [List.cons_append, List.find?_cons_of_neg _ (by simpa using hp),
        List.find?_cons_of_neg _ (by simpa using hp)]
      exact ih

/-- Lookup in the clean enumeration map built from a range. -/
theorem mapLookup_range (t : Nat → List Char) :
    ∀ (n i : Nat), i < n →
      mapLookup ((List.range n).map fun (j : Nat) => ((j : Int), t j)) (i : Int)
        = some (t i) := by
  intro n
  induction n with
  | zero => intro i h; omega
  | succ n ih =>
    intro i h
    rw [List.range_succ, List.map_append, mapLookup_append]
    by_cases hin : i < n
    · rw [ih i hin]
    · have hi : i = n := by omega
      subst hi
      have hnone : mapLookup ((List.range i).map fun (j : Nat) => ((j : Int), t j))
          (i : Int) = none := by
        unfold mapLookup
        rw [List.find?_eq_none.mpr]
        intro q hq
        simp only [List.mem_map, List.mem_range] at hq
        obtain ⟨j, hj, rfl⟩ := hq
        simp only [decide_eq_true_eq]
        intro hc
        have hji : j = i := by exact_mod_cast hc
        omega
      rw [hnone]
      simp [mapLookup]

/-- Success stepping lemma for the generation loop. -/
theorem generateLoop_ok (responses : Nat → ApiResponse)
    (fuel attempt acc : Nat) (args : List (Int × List Char))
    (hok : respOk (responses attempt).status = true)
    (hargs : (responses attempt).toolArgs = some args) :
    generateLoop responses (fuel + 1) attempt acc
      = .success (buildResultMap args) (attempt + 1) acc := by
  simp [generateLoop, hok, hargs]

/-- C3 counterexample: with 120 scanned sections, a run whose first model
response succeeds performs exactly 1 generation call — the source builds a
single prompt with all sections (lines 1546–1549) and has no batch loop —
not the 3 batched calls the claim describes. -/
theorem c3_counterexample_single_call :
    sections120.length = 120
    ∧ (generateAllReplacements oracle120 [] sections120 []).attemptCount = 1
    ∧ (1 : Nat) ≠ 3 := by
  refine ⟨by decide, ?_, by decide⟩
  decide

/-- C3 amended: for 120 sections the Orchestrator issues a single
generation call carrying all of them; when the first response's structured
tool call enumerates sections 1..120, the resulting 0-indexed map has 120
entries and answers every position `i < 120`. -/
theorem c3_single_call_covers_all (t : Nat → List Char)
    (responses : Nat → ApiResponse) (p : List Char)
    (ss : List HighlightedSection) (md : List Char)
    (_hss : ss.length = 120)
    (h0 : responses 0
      = ⟨200, some ((List.range 120).map fun (i : Nat) => ((i : Int) + 1, t i))⟩) :
    generateAllReplacements responses p ss md
        = .success ((List.range 120).map fun (i : Nat) => ((i : Int), t i)) 1 0
    ∧ ((List.range 120).map fun (i : Nat) => ((i : Int), t i)).length = 120
    ∧ ∀ i : Nat, i < 120 →
        mapLookup ((List.range 120).map fun (i : Nat) => ((i : Int), t i)) (i : Int)
          = some (t i) := by
  refine ⟨?_, by simp, fun i hi => mapLookup_range t 120 i hi⟩
  have hmap : buildResultMap ((List.range 120).map fun (i : Nat) => ((i : Int) + 1, t i))
      = (List.range 120).map fun (i : Nat) => ((i : Int), t i) := by
    rw [buildResultMap, foldl_mapSet_fresh _ [] (by simp) ?_]
    · rw [List.nil_append, List.map_map]
      apply List.map_congr_left
      intro i _
      have hcast : ((i : Int) + 1) - 1 = (i : Int) := by ring
      simp [Function.comp, hcast]
    · rw [List.map_map]
      have hfun : ((fun r : Int × List Char => r.1 - 1)
            ∘ fun (i : Nat) => (((i : Int) + 1), t i))
          = fun (i : Nat) => (i : Int) := by
        funext i
        simp only [Function.comp]
        ring
      rw [hfun]
      exact List.Nodup.map (fun a b hab => by exact_mod_cast hab) (List.nodup_range 120)
  have hok : respOk (responses 0).status = true := by rw [h0]; rfl
  have hargs : (responses 0).toolArgs
      = some ((List.range 120).map fun (i : Nat) => ((i : Int) + 1, t i)) := by rw [h0]
  show generateLoop responses maxRetries 0 0 = _
  rw [show maxRetries = 4 + 1 from rfl,
    generateLoop_ok responses 4 0 0 _ hok hargs, hmap]

/-- Witness for the amended C3 at the concrete 120-section run. -/
theorem c3_single_call_covers_all_witness :
    sections120.length = 120
    ∧ generateAllReplacements oracle120 [] sections120 []
        = .success ((List.range 120).map fun (i : Nat) => ((i : Int), 't' :: Nat.toDigits 10 i)) 1 0
    ∧ mapLookup ((List.range 120).map fun (i : Nat) => ((i : Int), 't' :: Nat.toDigits 10 i))
        ((7 : Nat) : Int) = some ('t' :: Nat.toDigits 10 7) :=
  ⟨by decide,
    (c3_single_call_covers_all (fun i => 't' :: Nat.toDigits 10 i) oracle120 []
      sections120 [] (by decide) rfl).1,
    (c3_single_call_covers_all (fun i => 't' :: Nat.toDigits 10 i) oracle120 []
      sections120 [] (by decide) rfl).2.2 7 (by omega)⟩

/-! ## Claim C5 -/

/-- The last block of a joined list is a suffix of the join. -/
theorem suffix_joinSep_last (sep : List Char) :
    ∀ (xs : List (List Char)) (t : List Char), t <:+ joinSep sep (xs ++ [t]) := by
  intro xs
  induction xs with
  | nil => intro t; simp [joinSep]
  | cons x xs ih =>
    intro t
    have h1 : t <:+ joinSep sep (xs ++ [t]) := ih t
    have h2 : joinSep sep (xs ++ [t]) <:+ joinSep sep ((x :: xs) ++ [t]) := by
      rcases hxs : xs ++ [t] with _ | ⟨y, ys⟩
      · exact absurd hxs (by simp)
      · rw [List.cons_append, hxs]
        show joinSep sep (y :: ys) <:+ joinSep sep (x :: y :: ys)
        rw [show joinSep sep (x :: y :: ys) = x ++ sep ++ joinSep sep (y :: ys) from rfl]
        exact List.suffix_append (x ++ sep) (joinSep sep (y :: ys))
    exact h1.trans h2

/-- Pushing into the sliding buffer puts the pushed text at the end. -/
theorem bufferPush_last (buffer : List (List Char)) (t : List Char) :
    ∃ zs, bufferPush buffer t = zs ++ [t] := by
  unfold bufferPush
  by_cases h : (buffer ++ [t]).length > 10
  · rw [if_pos h]
    have hlen : 1 ≤ buffer.length := by
      simp only [List.length_append, List.length_singleton] at h
      omega
    exact ⟨buffer.drop 1, by rw [List.drop_append_of_le_length hlen]⟩
  · rw [if_neg h]
    exact ⟨buffer, rfl⟩

/-- Taking the last five elements keeps the final element final. -/
theorem lastFive_last (zs : List (List Char)) (t : List Char) :
    ∃ ys, lastFive (zs ++ [t]) = ys ++ [t] := by
  unfold lastFive
  have hk : (zs ++ [t]).length - 5 ≤ zs.length := by
    simp only [List.length_append, List.length_singleton]
    omega
  exact ⟨zs.drop ((zs ++ [t]).length - 5), by rw [List.drop_append_of_le_length hk]⟩

/-- Every section emitted by the run scanner has a context ending in its
own text (the buffer is pushed before the context is recorded). -/
theorem scanRuns_context_suffix :
    ∀ (fuel : Nat) (l : List Char) (buffer : List (List Char)),
      ∀ s ∈ scanRuns fuel l buffer, s.text <:+ s.context := by
  intro fuel
  induction fuel with
  | zero => intro l buffer s hs; simp [scanRuns] at hs
  | succ fuel ih =>
    intro l buffer s hs
    cases l with
    | nil => simp [scanRuns] at hs
    | cons c rest =>
      rw [show scanRuns (fuel + 1) (c :: rest) buffer
          = match tryRunAt (c :: rest) with
            | none => scanRuns fuel rest buffer
            | some (fullMatch, content, restAfter) =>
              let runText := runTextOf content
              let bufferNew :=
                if jsTrim runText ≠ [] then bufferPush buffer runText else buffer
              if hasHighlight content ∧ jsTrim runText ≠ [] then
                { text := runText
                  context := joinSep [' '] (lastFive bufferNew)
                  fullMatch := fullMatch } :: scanRuns fuel restAfter bufferNew
              else
                scanRuns fuel restAfter bufferNew
          from rfl] at hs
      rcases htry : tryRunAt (c :: rest) with _ | ⟨fullMatch, content, restAfter⟩
      · rw [htry] at hs
        exact ih rest buffer s hs
      · rw [htry] at hs
        simp only at hs
        by_cases hcond : hasHighlight content ∧ jsTrim (runTextOf content) ≠ []
        · rw [if_pos hcond] at hs
          rcases List.mem_cons.mp hs with rfl | hmem
          · simp only [if_pos hcond.2]
            obtain ⟨zs, hzs⟩ := bufferPush_last buffer (runTextOf content)
            rw [hzs]
            obtain ⟨ys, hys⟩ := lastFive_last zs (runTextOf content)
            rw [hys]
            exact suffix_joinSep_last [' '] ys (runTextOf content)
          · exact ih restAfter _ s hmem
        · rw [if_neg hcond] at hs
          exact ih restAfter _ s hs

/-- C5 counterexample: in a document whose highlighted run `Two` is
preceded by a plain run `One`, the scanned section's context is
`One Two` — it contains the run's own text, because the run is pushed into
the sliding buffer *before* the context is recorded. -/
theorem c5_counterexample_context_has_own_text :
    (extractHighlightedSections docOneTwo).map HighlightedSection.text
        = ["Two".toList]
    ∧ (extractHighlightedSections docOneTwo).map HighlightedSection.context
        = ["One Two".toList]
    ∧ containsSub ("Two".toList) ("One Two".toList) = true := by
  exact ⟨by decide, by decide, by decide⟩

/-- C5 amended: the context of every scanned section is the space-join of
the last up-to-5 buffer entries recorded *after* the current run's text is
pushed, so a section's context always ends with that section's own text. -/
theorem c5_context_ends_with_own_text (doc : List Char) (s : HighlightedSection)
    (hs : s ∈ extractHighlightedSections doc) : s.text <:+ s.context :=
  scanRuns_context_suffix (doc.length + 1) doc [] s hs

/-- Witness for the amended C5 at the concrete two-run document. -/
theorem c5_context_ends_with_own_text_witness :
    (⟨"Two".toList, "One Two".toList, runTwo⟩ : HighlightedSection)
        ∈ extractHighlightedSections docOneTwo
    ∧ "Two".toList <:+ "One Two".toList :=
  ⟨by decide,
    c5_context_ends_with_own_text docOneTwo
      ⟨"Two".toList, "One Two".toList, runTwo⟩ (by decide)⟩

/-! ## Claim C6 -/

/-- Chained character-wise replacements compose into one pass. -/
theorem flatMap_flatMap_chain (l : List Char) (f g : Char → List Char) :
    (l.flatMap f).flatMap g = l.flatMap fun x => (f x).flatMap g := by
  induction l with
  | nil => rfl
  | cons c rest ih => simp [ih]

/-- C6: the source's chain of global replaces agrees with the spec's
single-pass description — URL-shaped text (text beginning with `http://` or
`https://` after trimming) has only `<` and `>` escaped with `&` preserved,
and every other text has all five of `& < > " '` escaped as XML entities. -/
theorem c6_escapeXml_matches_spec (text : List Char) :
    escapeXml text = escapeXmlSpec text := by
  unfold escapeXml escapeXmlSpec
  by_cases hurl : isUrlText text = true
  · rw [if_pos hurl, hurl]
    unfold replaceAllChar
    rw [flatMap_flatMap_chain]
    congr 1
    funext x
    by_cases h1 : x = '<'
    · subst h1; decide
    · by_cases h2 : x = '>'
      · subst h2; decide
      · simp [h1, h2, escCharSpec]
  · rw [if_neg hurl, Bool.not_eq_true] at *
    rw [hurl]
    unfold replaceAllChar
    rw [flatMap_flatMap_chain, flatMap_flatMap_chain, flatMap_flatMap_chain,
      flatMap_flatMap_chain]
    congr 1
    funext x
    by_cases h1 : x = '&'
    · subst h1; decide
    · by_cases h2 : x = '<'
      · subst h2; decide
      · by_cases h3 : x = '>'
        · subst h3; decide
        · by_cases h4 : x = '"'
          · subst h4; decide
          · by_cases h5 : x = '\''
            · subst h5; decide
            · simp [h1, h2, h3, h4, h5, escCharSpec]

/-! ## Claim C7 -/

/-- Rounding an integer-valued rational is the identity. -/
theorem jsRound_intCast (z : ℤ) : jsRound (z : ℚ) = z := by
  unfold jsRound
  rw [Int.floor_int_add]
  norm_num

/-- C7 counterexample: a replacement stating `54.25% in equities` makes the
Inferencer derive growth = 54.25 directly and defensive = 45.8 by the
rounded complement, and 54.25 + 45.8 = 100.05 ≠ 100. -/
theorem c7_counterexample_sum_not_100 :
    extractPercentageDataFromReplacements [repEq5425] []
        = some ⟨[], 217 / 4, 229 / 5, pieLabels⟩
    ∧ (217 / 4 : ℚ) + 229 / 5 ≠ 100 := by
  exact ⟨by with_unfolding_all decide, by norm_num⟩

/-- C7 amended: whenever strategies 1–2 derive exactly one of the two
percentages, the other is `Math.round((100 - known) * 10) / 10`; the pair
sums to exactly 100 when the known value is an integer multiple of 0.1
(but not in general, as the counterexample shows). -/
theorem c7_complement_rounding (rs : List ProcessedReplacement) (doc : List Char)
    (g d : ℚ) :
    (strat2Guarded (collectEntries rs) (phase1Run rs (none, none)) = (some g, none) →
        extractPercentageDataFromReplacements rs doc
            = some ⟨[], g, round1dp (100 - g), pieLabels⟩
        ∧ ((∃ k : ℤ, g = (k : ℚ) / 10) → g + round1dp (100 - g) = 100))
    ∧ (strat2Guarded (collectEntries rs) (phase1Run rs (none, none)) = (none, some d) →
        extractPercentageDataFromReplacements rs doc
            = some ⟨[], round1dp (100 - d), d, pieLabels⟩
        ∧ ((∃ k : ℤ, d = (k : ℚ) / 10) → round1dp (100 - d) + d = 100)) := by
  have hsum : ∀ q : ℚ, (∃ k : ℤ, q = (k : ℚ) / 10) → q + round1dp (100 - q) = 100 := by
    rintro q ⟨k, rfl⟩
    have hint : (100 - (k : ℚ) / 10) * 10 = ((1000 - k : ℤ) : ℚ) := by
      push_cast
      ring
    unfold round1dp
    rw [hint, jsRound_intCast]
    push_cast
    ring
  constructor
  · intro h
    refine ⟨?_, hsum g⟩
    unfold extractPercentageDataFromReplacements
    rcases hp : phase1Run rs (none, none) with ⟨g1, d1⟩
    rw [hp] at h
    cases g1 with
    | some a =>
      cases d1 with
      | some b =>
        rw [show strat2Guarded (collectEntries rs) (some a, some b) = (some a, some b)
          from by simp [strat2Guarded]] at h
        simp at h
      | none =>
        simp only [h, strat3, strat4Guarded]
        simp
    | none =>
      cases d1 with
      | some b =>
        have hb : strat2Guarded (collectEntries rs) (none, some b)
            = strat2Run (collectEntries rs) (none, some b) := by
          simp [strat2Guarded]
        rw [hb] at h
        exfalso
        have : ∀ (entries : List PctEntry) (s : Option ℚ × Option ℚ),
            s.2 ≠ none → (strat2Run entries s).2 ≠ none := by
          intro entries
          induction entries with
          | nil => intro s hs; exact hs
          | cons e rest ih =>
            intro s hs
            rcases s with ⟨sg, sd⟩
            cases sd with
            | none => exact absurd rfl hs
            | some v =>
              apply ih
              simp
        have h2 := this (collectEntries rs) (none, some b) (by simp)
        rw [h] at h2
        exact h2 rfl
      | none =>
        simp only [h, strat3, strat4Guarded]
        simp
  · intro h
    refine ⟨?_, fun hk => by rw [add_comm]; exact hsum d hk⟩
    unfold extractPercentageDataFromReplacements
    rcases hp : phase1Run rs (none, none) with ⟨g1, d1⟩
    rw [hp] at h
    cases g1 with
    | some a =>
      cases d1 with
      | some b =>
        rw [show strat2Guarded (collectEntries rs) (some a, some b) = (some a, some b)
          from by simp [strat2Guarded]] at h
        simp at h
      | none =>
        have ha : strat2Guarded (collectEntries rs) (some a, none)
            = strat2Run (collectEntries rs) (some a, none) := by
          simp [strat2Guarded]
        rw [ha] at h
        exfalso
        have : ∀ (entries : List PctEntry) (s : Option ℚ × Option ℚ),
            s.1 ≠ none → (strat2Run entries s).1 ≠ none := by
          intro entries
          induction entries with
          | nil => intro s hs; exact hs
          | cons e rest ih =>
            intro s hs
            rcases s with ⟨sg, sd⟩
            cases sg with
            | none => exact absurd rfl hs
            | some v =>
              apply ih
              simp
        have h2 := this (collectEntries rs) (some a, none) (by simp)
        rw [h] at h2
        exact h2 rfl
    | none =>
      cases d1 with
      | some b =>
        simp only [h, strat3, strat4Guarded]
        simp
      | none =>
        simp only [h, strat3, strat4Guarded]
        simp

/-- Witness for the amended C7 at a one-decimal equity percentage. -/
theorem c7_complement_rounding_witness :
    strat2Guarded (collectEntries [repEq625]) (phase1Run [repEq625] (none, none))
        = (some (125 / 2), none)
    ∧ extractPercentageDataFromReplacements [repEq625] []
        = some ⟨[], 125 / 2, round1dp (100 - 125 / 2), pieLabels⟩
    ∧ (125 / 2 : ℚ) + round1dp (100 - 125 / 2) = 100 :=
  ⟨by with_unfolding_all decide,
    ((c7_complement_rounding [repEq625] [] (125 / 2) 0).1
      (by with_unfolding_all decide)).1,
    ((c7_complement_rounding [repEq625] [] (125 / 2) 0).1
      (by with_unfolding_all decide)).2 ⟨625, by norm_num⟩⟩

/-! ## Claim C4 -/

set_option maxRecDepth 40000 in
/-- C4 counterexample: after rewriting a paragraph whose two runs are both
highlighted, with only the first run in the replacement list, highlight
markup is still present in the output — the sibling run keeps it, and no
second paragraph-level pass exists in the source. -/
theorem c4_counterexample_highlight_remains :
    containsSub ("<w:highlight".toList) (replaceHighlightedText paraAB [repA]) = true := by
  decide

set_option maxRecDepth 40000 in
/-- C4 amended: `replaceHighlightedText` strips highlight markup only from
the replaced run itself — the rewritten paragraph carries the new text with
the replaced run's highlight removed while the sibling highlighted run
`runB` survives byte-for-byte, untouched by any paragraph-level pass. -/
theorem c4_only_replaced_run_stripped :
    replaceHighlightedText paraAB [repA]
      = "<w:p><w:r><w:rPr></w:rPr><w:t>X</w:t></w:r>".toList ++ runB ++ "</w:p>".toList := by
  decide

/-! ## Claim C10 -/

/-- Rewriting an entry in place does not disturb lookups of other paths. -/
theorem find?_map_write (zip : Zip) (q p : List Char) (d : FileData) (h : p ≠ q) :
    (zip.map fun e =>
        if e.path = q then { e with data := d, isDir := false } else e).find?
        (fun e => e.path = p)
      = zip.find? (fun e => e.path = p) := by
  induction zip with
  | nil => rfl
  | cons e rest ih =>
    simp only [List.map_cons]
    by_cases hep : e.path = q
    · rw [if_pos hep]
      have hq1 : ¬ (({ e with data := d, isDir := false } : ZipEntry).path = p) := by
        show ¬ (e.path = p)
        rw [hep]
        exact Ne.symm h
      have hq2 : ¬ (e.path = p) := by
        rw [hep]
        exact Ne.symm h
      rw [List.find?_cons_of_neg _ (by simpa using hq1),
        List.find?_cons_of_neg _ (by simpa using hq2)]
      exact ih
    · rw [if_neg hep]
      by_cases hpp : e.path = p
      · rw [List.find?_cons_of_pos _ (by simp [hpp]),
          List.find?_cons_of_pos _ (by simp [hpp])]
      · rw [List.find?_cons_of_neg _ (by simp [hpp]),
          List.find?_cons_of_neg _ (by simp [hpp])]
        exact ih

/-- Appending an entry with a different path does not disturb lookups. -/
theorem find?_append_single (zip : Zip) (x : ZipEntry) (p : List Char)
    (hx : ¬ x.path = p) :
    (zip ++ [x]).find? (fun e => e.path = p) = zip.find? (fun e => e.path = p) := by
  induction zip with
  | nil =>
    simp only [List.nil_append]
    rw [List.find?_cons_of_neg _ (by simp [hx])]
  | cons e rest ih =>
    by_cases hpp : e.path = p
    · rw [List.cons_append, List.find?_cons_of_pos _ (by simp [hpp]),
        List.find?_cons_of_pos _ (by simp [hpp])]
    · rw [List.cons_append, List.find?_cons_of_neg _ (by simp [hpp]),
        List.find?_cons_of_neg _ (by simp [hpp])]
      exact ih

/-- Writing one path leaves every other path's lookup unchanged. -/
theorem zipLookup_zipWrite_ne (zip : Zip) (q p : List Char) (d : FileData)
    (h : p ≠ q) :
    zipLookup (zipWrite zip q d) p = zipLookup zip p := by
  unfold zipWrite zipLookup
  by_cases hany : zip.any (fun e => e.path = q)
  · rw [if_pos hany, find?_map_write zip q p d h]
  · rw [if_neg hany, find?_append_single zip _ p (by simpa using fun hh => h hh.symm)]

/-- Insertion into the position-sorted list adds no new elements. -/
theorem mem_insertByPos (x c : Candidate) :
    ∀ l : List Candidate, x ∈ insertByPos c l → x = c ∨ x ∈ l := by
  intro l
  induction l with
  | nil =>
    intro h
    simp [insertByPos] at h
    exact Or.inl h
  | cons y rest ih =>
    intro h
    unfold insertByPos at h
    by_cases hle : c.position ≤ y.position
    · rw [if_pos hle] at h
      rcases List.mem_cons.mp h with rfl | h2
      · exact Or.inl rfl
      · exact Or.inr h2
    · rw [if_neg hle] at h
      rcases List.mem_cons.mp h with rfl | h2
      · exact Or.inr (List.mem_cons_self _ _)
      · rcases ih h2 with h3 | h3
        · exact Or.inl h3
        · exact Or.inr (List.mem_cons_of_mem _ h3)

/-- Sorting by position adds no new elements. -/
theorem mem_sortByPos (x : Candidate) :
    ∀ l : List Candidate, x ∈ sortByPos l → x ∈ l := by
  intro l
  induction l with
  | nil => intro h; simp [sortByPos] at h
  | cons c rest ih =>
    intro h
    unfold sortByPos at h
    rcases mem_insertByPos x c (sortByPos rest) h with rfl | h2
    · exact List.mem_cons_self _ _
    · exact List.mem_cons_of_mem _ (ih h2)

/-- The closest-candidate fold returns its seed or a list element. -/
theorem pickClosestGo_mem (ctx : Nat) :
    ∀ (l : List Candidate) (b : Candidate),
      pickClosestGo ctx b l = b ∨ pickClosestGo ctx b l ∈ l := by
  intro l
  induction l with
  | nil => intro b; exact Or.inl rfl
  | cons c rest ih =>
    intro b
    unfold pickClosestGo
    by_cases hc : |(c.position : ℤ) - ctx| < |(b.position : ℤ) - ctx|
    · rw [if_pos hc]
      rcases ih c with h | h
      · exact Or.inr (by rw [h]; exact List.mem_cons_self _ _)
      · exact Or.inr (List.mem_cons_of_mem _ h)
    · rw [if_neg hc]
      rcases ih b with h | h
      · exact Or.inl h
      · exact Or.inr (List.mem_cons_of_mem _ h)

/-- The selected closest candidate comes from the list. -/
theorem pickClosest_mem (ctx : Nat) (l : List Candidate) (c : Candidate)
    (h : pickClosest ctx l = some c) : c ∈ l := by
  cases l with
  | nil => simp [pickClosest] at h
  | cons x rest =>
    unfold pickClosest at h
    have hc : pickClosestGo ctx x rest = c := by
      injection h
    rcases pickClosestGo_mem ctx rest x with h2 | h2
    · rw [hc] at h2
      rw [← h2]
      exact List.mem_cons_self _ _
    · rw [hc] at h2
      exact List.mem_cons_of_mem _ h2

/-- The last element of a list is an element. -/
theorem getLast?_mem_own : ∀ (l : List Candidate) (c : Candidate),
    l.getLast? = some c → c ∈ l := by
  intro l
  induction l with
  | nil => intro c h; simp at h
  | cons x rest ih =>
    intro c h
    cases rest with
    | nil =>
      simp [List.getLast?] at h
      rw [← h]
      exact List.mem_cons_self _ _
    | cons y ys =>
      rw [List.getLast?_cons_cons] at h
      exact List.mem_cons_of_mem _ (ih c h)

/-- The chosen best candidate comes from the sorted list. -/
theorem chooseBest_mem (ctxPos : Option Nat) (sorted : List Candidate)
    (c : Candidate) (h : chooseBest ctxPos sorted = some c) : c ∈ sorted := by
  cases ctxPos with
  | none => exact getLast?_mem_own sorted c h
  | some ctx => exact pickClosest_mem ctx sorted c h

/-- Every collected candidate's path is one of the scanned image paths. -/
theorem collectCandidates_path
    (fr : List Char → List Char → Option (List Char))
    (fb : List Char → List Char → Option Nat) (rels mx : List Char) :
    ∀ (files : List (List Char)) (c : Candidate),
      c ∈ collectCandidates fr fb rels mx files → c.path ∈ files := by
  intro files
  induction files with
  | nil => intro c h; simp [collectCandidates] at h
  | cons f rest ih =>
    intro c h
    unfold collectCandidates at h
    split at h
    · exact List.mem_cons_of_mem _ (ih c h)
    · split at h
      · exact List.mem_cons_of_mem _ (ih c h)
      · split at h
        · exact List.mem_cons_of_mem _ (ih c h)
        · split at h
          · exact List.mem_cons_of_mem _ (ih c h)
          · rcases List.mem_cons.mp h with rfl | h2
            · exact List.mem_cons_self _ _
            · exact List.mem_cons_of_mem _ (ih c h2)

/-- Every scanned image path lies under `word/media/`. -/
theorem imageFilesOf_under_media (zip : Zip) (p : List Char)
    (h : p ∈ imageFilesOf zip) :
    ("word/media/".toList).isPrefixOf p = true := by
  unfold imageFilesOf at h
  rcases List.mem_map.mp h with ⟨e, he, rfl⟩
  have hc := (List.mem_filter.mp he).2
  simp only [Bool.and_eq_true] at hc
  exact hc.1.1

/-- C10: `replacePieCharts` always returns the `modifiedXml` it was given,
and the only package entry it can touch lies under `word/media/` — every
other path, in particular `word/document.xml`, is looked up unchanged.
This holds for every behavior of the abstracted search primitives and of
the image generator. -/
theorem c10_pie_chart_frame
    (fc : List Char → Option Nat)
    (fr : List Char → List Char → Option (List Char))
    (fb : List Char → List Char → Option Nat)
    (gen : PieChartData → Option (List Nat))
    (zip : Zip) (docXml modXml : List Char) (rs : List ProcessedReplacement) :
    (replacePieCharts fc fr fb gen zip docXml modXml rs).2 = modXml
    ∧ ∀ p, ("word/media/".toList).isPrefixOf p = false →
        zipLookup (replacePieCharts fc fr fb gen zip docXml modXml rs).1 p
          = zipLookup zip p := by
  unfold replacePieCharts
  rcases hpd : extractPercentageDataFromReplacements rs docXml with _ | pd
  · exact ⟨rfl, fun p _ => rfl⟩
  · simp only
    by_cases himg : (imageFilesOf zip).isEmpty
    · rw [if_pos himg]
      exact ⟨rfl, fun p _ => rfl⟩
    · rw [if_neg himg]
      rcases hrels : zipLookup zip ("word/_rels/document.xml.rels".toList)
          with _ | relsFile
      · exact ⟨rfl, fun p _ => rfl⟩
      · simp only
        by_cases hce : (collectCandidates fr fb (entryText relsFile.data) modXml
            (imageFilesOf zip)).isEmpty
        · rw [if_pos hce]
          exact ⟨rfl, fun p _ => rfl⟩
        · rw [if_neg hce]
          rcases hb : chooseBest (fc modXml) (sortByPos (collectCandidates fr fb
              (entryText relsFile.data) modXml (imageFilesOf zip))) with _ | bc
          · exact ⟨rfl, fun p _ => rfl⟩
          · rcases hgen : gen pd with _ | bytes
            · exact ⟨rfl, fun p _ => rfl⟩
            · refine ⟨rfl, fun p hp => ?_⟩
              apply zipLookup_zipWrite_ne
              intro hpq
              have hmem := chooseBest_mem (fc modXml) _ bc hb
              have hpath := collectCandidates_path fr fb (entryText relsFile.data)
                modXml (imageFilesOf zip) bc (mem_sortByPos bc _ hmem)
              have hpre := imageFilesOf_under_media zip bc.path hpath
              rw [hpq, hpre] at hp
              exact Bool.true_eq_false.mp hp

/-- Witness for C10 at a concrete package, checked at `word/document.xml`. -/
theorem c10_pie_chart_frame_witness :
    ("word/media/".toList).isPrefixOf ("word/document.xml".toList) = false
    ∧ (replacePieCharts (fun _ => none) (fun _ _ => none) (fun _ _ => none)
        (fun _ => none) zipDemo ([] : List Char) ("<w:p/>".toList) []).2
        = "<w:p/>".toList
    ∧ zipLookup (replacePieCharts (fun _ => none) (fun _ _ => none) (fun _ _ => none)
        (fun _ => none) zipDemo ([] : List Char) ("<w:p/>".toList) []).1
        ("word/document.xml".toList)
      = zipLookup zipDemo ("word/document.xml".toList) :=
  ⟨by decide,
    (c10_pie_chart_frame (fun _ => none) (fun _ _ => none) (fun _ _ => none)
      (fun _ => none) zipDemo [] ("<w:p/>".toList) []).1,
    (c10_pie_chart_frame (fun _ => none) (fun _ _ => none) (fun _ _ => none)
      (fun _ => none) zipDemo [] ("<w:p/>".toList) []).2
      ("word/document.xml".toList) (by decide)⟩

end DocUpdate
